import Mathlib

/-!
# TaskManager: a shallow embedding of the scheduler core

Sources embedded here:

* `Power2.h`        : `NextPower2(uint32_t)` in both platform definitions;
* `mpmc_queue.h`    : the bounded queue (`queue`, `try_push`, `try_pop`, `approx_size`);
* `light_mutex.cpp` : `try_lock`, `lock`, `unlock` on the 32-bit state word;
* `TaskManager.cpp` : `Create` (initialisation part), the park test and the
  decrementer of `TaskLoop`, `RunJobs`, `WaitForCounter`.

Conventions.  `uint32_t` / `unsigned` values are naturals below `2 ^ 32`, with the
wrap written out as `% 2 ^ 32`.  Pointers are naturals with `0` as `nullptr`;
a `Counter*` is the index of the counter in `taskCounters`.  The model is
sequential: one thread runs each operation to completion, so a compare-exchange
succeeds exactly when the word holds the expected value.
-/

/-- Outcome of running a piece of the program. -/
inductive Res (σ : Type) where
  /-- The code ran to its end and produced a value. -/
  | ret : σ → Res σ
  /-- The code left defined behaviour: an access outside an allocation, or a
  shift by the full width of its operand. -/
  | undefined : Res σ
  /-- The `for(;;)` / `do while` loop did not exit within the given number of rounds. -/
  | spin : Res σ
  /-- A `sanity` check failed. -/
  | abort : Res σ
  deriving DecidableEq, Repr

namespace Res

/-- Sequencing of outcomes. -/
def bind {σ τ : Type} : Res σ → (σ → Res τ) → Res τ
  | ret a, f => f a
  | undefined, _ => undefined
  | spin, _ => spin
  | abort, _ => abort

/-- Whether the code ran to its end. -/
def isRet {σ : Type} : Res σ → Bool
  | ret _ => true
  | _ => false

end Res

/-- The two compilation targets `Power2.h` distinguishes with `_MSC_VER`. -/
inductive Platform where
  | msvc : Platform
  | gnu : Platform
  deriving DecidableEq, Repr

/-- The value `2 ^ 32` at which `uint32_t` wraps. -/
def U32 : Nat := 2 ^ 32

/-- Scan of the low `k` bits of `x` from the top: the number of zero bits above the
highest set bit among them (`k` when there is none). -/
def clzBits : Nat → Nat → Nat
  | 0, _ => 0
  | k + 1, x => if 2 ^ k ≤ x then 0 else clzBits k x + 1

/-- The intrinsic `__builtin_clz` on a non-zero 32-bit operand: the number of leading zero bits. -/
def __builtin_clz (x : Nat) : Nat := clzBits 32 x

/-- The intrinsic `_BitScanReverse` on a non-zero 32-bit mask: the index of the highest set bit. -/
def _BitScanReverse (mask : Nat) : Nat := 31 - clzBits 32 mask

/-- The function `NextPower2(uint32_t v)`, `_MSC_VER` definition:
`if (v <= 1) return 1; else { _BitScanReverse(&bit, v - 1); return 1u << (32 - bit); }`.
The shift is a 32-bit shift; a count of 32 is outside defined behaviour. -/
def NextPower2_msvc (v : Nat) : Res Nat :=
  if v ≤ 1 then Res.ret 1
  else
    let bit := _BitScanReverse (v - 1)
    if 32 - bit < 32 then Res.ret ((1 <<< (32 - bit)) % U32) else Res.undefined

/-- The function `NextPower2(uint32_t v)`, non-`_MSC_VER` definition:
`return v <= 1 ? 1 : (1ull << (32 - __builtin_clz(v - 1)));`.
The shift is a 64-bit shift and the result is converted to `uint32_t`. -/
def NextPower2_gnu (v : Nat) : Nat :=
  if v ≤ 1 then 1 else ((1 <<< (32 - __builtin_clz (v - 1))) % 2 ^ 64) % U32

/-- The function `NextPower2(uint32_t)` as compiled for a platform. -/
def NextPower2 : Platform → Nat → Res Nat
  | Platform.msvc, v => NextPower2_msvc v
  | Platform.gnu, v => Res.ret (NextPower2_gnu v)

namespace mpmc

/-- A slot of the ring, `struct Node`: payload bytes and the sequence word.  The
payload is `none` while the bytes have never been constructed into. -/
structure Node (α : Type) where
  data : Option α
  sequence : Nat
  deriving DecidableEq, Repr

/-- The class `mpmc::queue<T>`: the two positions, the slot array `buffer`
(`[]` for a null or zero-length allocation) and `bufMask`. -/
structure queue (α : Type) where
  enqueuePos : Nat
  dequeuePos : Nat
  buffer : List (Node α)
  bufMask : Nat
  deriving DecidableEq, Repr

namespace queue

variable {α : Type}

/-- The object as `memset(mem, 0, ...)` leaves it, before any constructor ran:
both positions zero, `buffer` null, `bufMask` zero. -/
def zeroed : queue α := ⟨0, 0, [], 0⟩

/-- The body of the constructor once `bufSize = NextPower2(bufSize)` is known:
`bufMask = bufSize - 1` (unsigned), `malloc` of `bufSize` slots, and
`buffer[bufIndex].sequence = bufIndex` for every slot. -/
def construct (bufSize : Nat) : queue α :=
  { enqueuePos := 0
    dequeuePos := 0
    buffer := (List.range bufSize).map fun bufIndex => ⟨none, bufIndex⟩
    bufMask := (bufSize + U32 - 1) % U32 }

/-- The constructor `queue(unsigned bufSize)`. -/
def new (p : Platform) (bufSize : Nat) : Res (queue α) :=
  (NextPower2 p bufSize).bind fun n => Res.ret (construct n)

/-- The `for(;;)` of `try_push`, run for at most the given number of rounds from
position `pos`.  `ret (some (pos, nextPos))` is the `break`, `ret none` the
`return false`. -/
def try_push_loop (q : queue α) : Nat → Nat → Res (Option (Nat × Nat))
  | 0, _ => Res.spin
  | fuel + 1, pos =>
    match q.buffer[pos &&& q.bufMask]? with
    | none => Res.undefined
    | some node =>
      let seq := node.sequence
      if seq = pos then
        let nextPos := (pos + 1) % U32
        if q.enqueuePos = pos then Res.ret (some (pos, nextPos))
        else try_push_loop q fuel q.enqueuePos
      else if seq < pos then Res.ret none
      else try_push_loop q fuel q.enqueuePos

/-- The method `try_push(data)`: the returned flag and the queue afterwards. -/
def try_push (q : queue α) (data : α) (fuel : Nat) : Res (Bool × queue α) :=
  (try_push_loop q fuel q.enqueuePos).bind fun r =>
    match r with
    | none => Res.ret (false, q)
    | some (pos, nextPos) =>
      Res.ret (true,
        { q with
          enqueuePos := nextPos
          buffer := q.buffer.set (pos &&& q.bufMask) ⟨some data, nextPos⟩ })

/-- The `for(;;)` of `try_pop`.  The local `nextPos` is declared without an
initialiser and the statement `nextPos - pos + 1;` assigns nothing, so the value
compared with the slot sequence is whatever the variable held on entry; it is
the argument `nextPos` here and stays the same in every round.
`ret (some pos)` is the `break`, `ret none` the `return false`. -/
def try_pop_loop (q : queue α) (nextPos : Nat) : Nat → Nat → Res (Option Nat)
  | 0, _ => Res.spin
  | fuel + 1, pos =>
    match q.buffer[pos &&& q.bufMask]? with
    | none => Res.undefined
    | some node =>
      let seq := node.sequence
      if seq = nextPos then
        if q.dequeuePos = pos then Res.ret (some pos)
        else try_pop_loop q nextPos fuel q.dequeuePos
      else if seq < nextPos then Res.ret none
      else try_pop_loop q nextPos fuel q.dequeuePos

/-- The method `try_pop(outData)`: the returned flag, the value written to
`*outData` (`none` when nothing is written, or when unconstructed bytes are
moved out) and the queue afterwards.  `nextPos` is the indeterminate initial
value of the local of that name. -/
def try_pop (q : queue α) (nextPos : Nat) (fuel : Nat) : Res (Bool × Option α × queue α) :=
  (try_pop_loop q nextPos fuel q.dequeuePos).bind fun r =>
    match r with
    | none => Res.ret (false, none, q)
    | some pos =>
      match q.buffer[pos &&& q.bufMask]? with
      | none => Res.undefined
      | some node =>
        Res.ret (true, node.data,
          { q with
            dequeuePos := nextPos
            buffer := q.buffer.set (pos &&& q.bufMask) ⟨node.data, (nextPos + q.bufMask) % U32⟩ })

/-- The method `approx_size()`: positions masked into `size_t`, `bufMask + 1`
(an `unsigned` sum) added to the enqueue side when it is behind, and the
`size_t` difference (64 bits, wrapping) converted to `unsigned`. -/
def approx_size (q : queue α) : Nat :=
  let deqPos := q.dequeuePos &&& q.bufMask
  let enqPos := q.enqueuePos &&& q.bufMask
  let enqPos := if deqPos > enqPos then enqPos + (q.bufMask + 1) % U32 else enqPos
  ((enqPos + 2 ^ 64 - deqPos) % 2 ^ 64) % U32

/-- The state of a queue of `c` slots after the elements `xs` were pushed on it
and nothing was popped: slot `i` below `xs.length` holds `xs[i]` with sequence
`i + 1`, the other slots are as constructed. -/
def filled (c : Nat) (xs : List α) : queue α :=
  { enqueuePos := xs.length
    dequeuePos := 0
    buffer := (List.range c).map fun i =>
      if i < xs.length then ⟨xs[i]?, i + 1⟩ else ⟨none, i⟩
    bufMask := (c + U32 - 1) % U32 }

/-- The number of elements the queue holds, pushed and not yet popped:
`enqueuePos - dequeuePos` in `unsigned` arithmetic. -/
def held (q : queue α) : Nat :=
  (q.enqueuePos + U32 - q.dequeuePos) % U32

end queue

end mpmc

namespace sync

/-- The state `UNLOCKED` of the enumeration in `light_mutex.cpp`. -/
def UNLOCKED : Nat := 0

/-- The state `LOCKED_NO_WAITING`. -/
def LOCKED_NO_WAITING : Nat := 1

/-- The state `LOCKED_THREADS_WAITING`. -/
def LOCKED_THREADS_WAITING : Nat := 2

/-- The constant `LIGHT_MUTEX_INIT` of `light_mutex.h`. -/
def LIGHT_MUTEX_INIT : Nat := 0

/-- The helper `CompareExchange(m, expected, desired)`: the value it returns (the
word as it was) and the word afterwards. -/
def CompareExchange (m expected desired : Nat) : Nat × Nat :=
  if m = expected then (m, desired) else (m, m)

/-- The function `try_lock(m)`: the returned flag and the word afterwards. -/
def try_lock (m : Nat) : Bool × Nat :=
  let r := CompareExchange m UNLOCKED LOCKED_NO_WAITING
  (r.1 == UNLOCKED, r.2)

/-- The function `unlock(m)`: the word afterwards and whether `SysUnlock` (the
wake call) was issued.  `fetch_sub(1)` wraps as `uint32_t`. -/
def unlock (m : Nat) : Nat × Bool :=
  let old := m
  let m1 := (m + U32 - 1) % U32
  if old ≠ LOCKED_NO_WAITING then (UNLOCKED, true) else (m1, false)

/-- The `do ... while` of `lock`, for at most the given number of rounds.
`SysLock` waits in the kernel and does not write the word. -/
def lock_loop : Nat → Nat → Nat → Res Nat
  | 0, _, _ => Res.spin
  | fuel + 1, m, oldState =>
    let m1 := if oldState = LOCKED_THREADS_WAITING then m
      else (CompareExchange m LOCKED_NO_WAITING LOCKED_THREADS_WAITING).2
    let r := CompareExchange m1 UNLOCKED LOCKED_THREADS_WAITING
    if r.1 ≠ UNLOCKED then lock_loop fuel r.2 r.1 else Res.ret r.2

/-- The function `lock(m)`: the word afterwards. -/
def lock (m : Nat) (fuel : Nat) : Res Nat :=
  let r := CompareExchange m UNLOCKED LOCKED_NO_WAITING
  if r.1 ≠ UNLOCKED then lock_loop fuel r.2 r.1 else Res.ret r.2

end sync

/-- Modelled from the spec: the check `sanity` of `Logger.h`, which is not among
the sources; the spec has a failed capacity check fail loudly (assertion / abort). -/
def sanity (cond : Bool) : Res Unit :=
  if cond then Res.ret () else Res.abort

/-- A counted loop `for (i = 0; i < n; ++i) body(i)` over a state. -/
def forRes {σ : Type} : Nat → (Nat → σ → Res σ) → σ → Res σ
  | 0, _, s => Res.ret s
  | n + 1, body, s => (forRes n body s).bind (body n)

namespace task

/-- The record `QueuedTask`: the task (an opaque callable, named by a number)
and the index of its counter. -/
structure QueuedTask where
  task : Nat
  counterIndex : Nat
  deriving DecidableEq, Repr

/-- The record `Counter`: the manager and fiber to wake (`0` is `nullptr`) and
the count of outstanding tasks. -/
structure Counter where
  wakeManager : Nat
  wakeFiber : Nat
  val : Nat
  deriving DecidableEq, Repr

/-- The record `Manager` (the `threads` array is left out). -/
structure Manager where
  fibers : List Nat
  threadTaskLocks : List Nat
  queuedTasks : List (mpmc.queue QueuedTask)
  waitingFibers : mpmc.queue Nat
  openFibers : mpmc.queue Nat
  openCounters : mpmc.queue Nat
  taskCounters : List Counter
  numWorkers : Nat
  numFibers : Nat
  shutdown : Bool
  deriving DecidableEq, Repr

/-- The manager after `memset(mem, 0, totalAllocSize)` and the assignments of
`numWorkers`, `numFibers`, `shutdown` and the array pointers: every array
element and every inline queue is zero bytes. -/
def Manager.zeroed (numWorkers numFibers numCounters : Nat) : Manager :=
  { fibers := List.replicate numFibers 0
    threadTaskLocks := List.replicate numWorkers 0
    queuedTasks := List.replicate numWorkers mpmc.queue.zeroed
    waitingFibers := mpmc.queue.zeroed
    openFibers := mpmc.queue.zeroed
    openCounters := mpmc.queue.zeroed
    taskCounters := List.replicate numCounters ⟨0, 0, 0⟩
    numWorkers := numWorkers
    numFibers := numFibers
    shutdown := false }

/-- Body of the first loop of `Create`: construct the worker's queue, store
`LIGHT_MUTEX_INIT` in its lock and lock it. -/
def Create_worker (p : Platform) (numTasksPerWorker fuel : Nat) (workerIndex : Nat)
    (manager : Manager) : Res Manager :=
  (mpmc.queue.new p numTasksPerWorker).bind fun q =>
  (sync.lock sync.LIGHT_MUTEX_INIT fuel).bind fun m =>
  Res.ret { manager with
    queuedTasks := manager.queuedTasks.set workerIndex q
    threadTaskLocks := manager.threadTaskLocks.set workerIndex m }

/-- Body of the fiber loop of `Create`: `fiber::Create` (external; its result
for index `i` is `fiberCreate i`), the store into `fibers`, and
`manager->openCounters.try_push(fiber)` followed by `sanity(pushed, ...)`. -/
def Create_fiber (fiberCreate : Nat → Nat) (fuel : Nat) (fiberIndex : Nat)
    (manager : Manager) : Res Manager :=
  let fiber := fiberCreate fiberIndex
  let manager := { manager with fibers := manager.fibers.set fiberIndex fiber }
  (manager.openCounters.try_push fiber fuel).bind fun r =>
  (sanity r.1).bind fun _ =>
  Res.ret { manager with openCounters := r.2 }

/-- Body of the counter loop of `Create`: zero the three fields and
`manager->openCounters.try_push(counter)` followed by `sanity(pushed, ...)`. -/
def Create_counter (fuel : Nat) (counterIndex : Nat) (manager : Manager) : Res Manager :=
  let manager := { manager with taskCounters := manager.taskCounters.set counterIndex ⟨0, 0, 0⟩ }
  (manager.openCounters.try_push counterIndex fuel).bind fun r =>
  (sanity r.1).bind fun _ =>
  Res.ret { manager with openCounters := r.2 }

/-- The function `Create` up to, and without, the launch of the worker threads. -/
def Create_init (p : Platform) (fiberCreate : Nat → Nat) (fuel : Nat)
    (numWorkers numFibers numTasksPerWorker : Nat) : Res Manager :=
  let numCounters := (numTasksPerWorker * numWorkers) % U32
  let manager := Manager.zeroed numWorkers numFibers numCounters
  (forRes numWorkers (Create_worker p numTasksPerWorker fuel) manager).bind fun manager =>
  (mpmc.queue.new p numFibers).bind fun waitingFibers =>
  let manager := { manager with waitingFibers := waitingFibers }
  (mpmc.queue.new p numFibers).bind fun openFibers =>
  let manager := { manager with openFibers := openFibers }
  (forRes numFibers (Create_fiber fiberCreate fuel) manager).bind fun manager =>
  (mpmc.queue.new p numCounters).bind fun openCounters =>
  let manager := { manager with openCounters := openCounters }
  forRes numCounters (Create_counter fuel) manager

/-- The function `RunJobs(manager, tasks, numTasks, outCounter)`, whose body is
empty: the manager and the variable `*outCounter` as they are afterwards. -/
def RunJobs (manager : Manager) (_tasks : List Nat) (_numTasks : Nat) (outCounter : Nat) :
    Manager × Nat :=
  (manager, outCounter)

/-- The function `WaitForCounter(manager, counter, value)`, whose body is empty:
the manager as it is afterwards. -/
def WaitForCounter (manager : Manager) (_counter : Nat) (_value : Nat) : Manager :=
  manager

/-- The test `!taskQueue->approx_size() && !manager->waitingFibers.approx_size()`
under which `TaskLoop` locks and unlocks the worker's mutex. -/
def TaskLoop_park (taskQueue : mpmc.queue QueuedTask) (waitingFibers : mpmc.queue Nat) : Bool :=
  (taskQueue.approx_size == 0) && (waitingFibers.approx_size == 0)

/-- The statements of `TaskLoop` that follow `curTask.task()`, on the task's
counter and the `waitingFibers` queue of every manager (by manager pointer):
`fetch_sub(1)`, `sanity(oldVal > 0)`, and for `oldVal == 1` the loads of
`wakeManager` and `wakeFiber` and the `try_push` with its `sanity`. -/
def TaskLoop_afterTask (waiting : Nat → mpmc.queue Nat) (counter : Counter) (fuel : Nat) :
    Res (Counter × (Nat → mpmc.queue Nat)) :=
  let oldVal := counter.val
  let counter := { counter with val := (counter.val + U32 - 1) % U32 }
  (sanity (decide (oldVal > 0))).bind fun _ =>
  if oldVal = 1 then
    let wakeManager := counter.wakeManager
    if wakeManager ≠ 0 then
      let wakeFiber := counter.wakeFiber
      if wakeFiber ≠ 0 then
        ((waiting wakeManager).try_push wakeFiber fuel).bind fun r =>
        (sanity r.1).bind fun _ =>
        Res.ret (counter, Function.update waiting wakeManager r.2)
      else Res.ret (counter, waiting)
    else Res.ret (counter, waiting)
  else Res.ret (counter, waiting)

end task

namespace task

/-- A manager in the state the initialisation is meant to leave for one worker,
two fibers (pointers 100 and 101) and two tasks per worker: every queue has two
slots, both fibers are on `openFibers`, both counters on `openCounters`. -/
def managerIdle : Manager :=
  { fibers := [100, 101]
    threadTaskLocks := [1]
    queuedTasks := [⟨0, 0, [⟨none, 0⟩, ⟨none, 1⟩], 1⟩]
    waitingFibers := ⟨0, 0, [⟨none, 0⟩, ⟨none, 1⟩], 1⟩
    openFibers := ⟨2, 0, [⟨some 100, 1⟩, ⟨some 101, 2⟩], 1⟩
    openCounters := ⟨2, 0, [⟨some 0, 1⟩, ⟨some 1, 2⟩], 1⟩
    taskCounters := [⟨0, 0, 0⟩, ⟨0, 0, 0⟩]
    numWorkers := 1
    numFibers := 2
    shutdown := false }

/-- A manager of the same shape with counter 0 taken off `openCounters` (which
holds counter 1 only) and in use, its tasks finished: `val = 0`, no waiter
registered. -/
def managerCounterInUse : Manager :=
  { fibers := [100, 101]
    threadTaskLocks := [1]
    queuedTasks := [⟨0, 0, [⟨none, 0⟩, ⟨none, 1⟩], 1⟩]
    waitingFibers := ⟨0, 0, [⟨none, 0⟩, ⟨none, 1⟩], 1⟩
    openFibers := ⟨2, 0, [⟨some 100, 1⟩, ⟨some 101, 2⟩], 1⟩
    openCounters := ⟨2, 1, [⟨some 0, 2⟩, ⟨some 1, 2⟩], 1⟩
    taskCounters := [⟨0, 0, 0⟩, ⟨0, 0, 0⟩]
    numWorkers := 1
    numFibers := 2
    shutdown := false }

end task

/-- The bounded FIFO the queue is compared with, in the words of the
specification: a capacity and the elements held, oldest first. -/
structure BoundedFifo (α : Type) where
  capacity : Nat
  items : List α
  deriving DecidableEq, Repr

namespace BoundedFifo

variable {α : Type}

/-- The empty FIFO of a capacity. -/
def empty (capacity : Nat) : BoundedFifo α := ⟨capacity, []⟩

/-- Push appends and succeeds iff the length is below the capacity. -/
def push (f : BoundedFifo α) (x : α) : Bool × BoundedFifo α :=
  if f.items.length < f.capacity then (true, { f with items := f.items ++ [x] }) else (false, f)

/-- Pop removes the head and succeeds iff the FIFO is non-empty. -/
def pop (f : BoundedFifo α) : Bool × Option α × BoundedFifo α :=
  match f.items with
  | [] => (false, none, f)
  | x :: rest => (true, some x, { f with items := rest })

end BoundedFifo

/-! ## Light mutex -/

theorem sync.unlock_wakes_iff (m : Nat) :
    (sync.unlock m).2 = true ↔ m ≠ sync.LOCKED_NO_WAITING := by
  unfold sync.unlock
  by_cases h : m = sync.LOCKED_NO_WAITING <;> simp [h]

/-- C8: for each of the three states, `try_lock` then `unlock` leaves the word
`UNLOCKED`, `try_lock` returns true exactly from `UNLOCKED`, a second round leaves
`UNLOCKED` again, and `unlock` issues the wake call exactly when the word it
decremented was not `LOCKED_NO_WAITING`, which happens only from
`LOCKED_THREADS_WAITING`. -/
theorem sync.try_lock_unlock_idempotent (s : Nat) (hs : s ≤ sync.LOCKED_THREADS_WAITING) :
    (sync.unlock (sync.try_lock s).2).1 = sync.UNLOCKED ∧
    ((sync.try_lock s).1 = true ↔ s = sync.UNLOCKED) ∧
    (sync.unlock (sync.try_lock (sync.unlock (sync.try_lock s).2).1).2).1 = sync.UNLOCKED ∧
    ((sync.unlock (sync.try_lock s).2).2 = true ↔ (sync.try_lock s).2 ≠ sync.LOCKED_NO_WAITING) ∧
    ((sync.unlock (sync.try_lock s).2).2 = true ↔ s = sync.LOCKED_THREADS_WAITING) := by
  have h : s = 0 ∨ s = 1 ∨ s = 2 := by
    unfold sync.LOCKED_THREADS_WAITING at hs
    omega
  rcases h with rfl | rfl | rfl <;> decide

theorem sync.try_lock_unlock_idempotent_witness :
    (2 : Nat) ≤ sync.LOCKED_THREADS_WAITING ∧
    ((sync.unlock (sync.try_lock 2).2).1 = sync.UNLOCKED ∧
    ((sync.try_lock 2).1 = true ↔ 2 = sync.UNLOCKED) ∧
    (sync.unlock (sync.try_lock (sync.unlock (sync.try_lock 2).2).1).2).1 = sync.UNLOCKED ∧
    ((sync.unlock (sync.try_lock 2).2).2 = true ↔ (sync.try_lock 2).2 ≠ sync.LOCKED_NO_WAITING) ∧
    ((sync.unlock (sync.try_lock 2).2).2 = true ↔ 2 = sync.LOCKED_THREADS_WAITING)) :=
  ⟨by decide, sync.try_lock_unlock_idempotent 2 (by decide)⟩

/-! ## The queue: facts about `try_push` -/

namespace mpmc.queue

variable {α : Type}

theorem try_push_loop_break (q : queue α) (fuel pos : Nat) (r : Nat × Nat)
    (h : try_push_loop q fuel pos = Res.ret (some r)) :
    r.1 = q.enqueuePos ∧ r.2 = (q.enqueuePos + 1) % U32 := by
  induction fuel generalizing pos with
  | zero => simp [try_push_loop] at h
  | succ n ih =>
    unfold try_push_loop at h
    split at h
    · simp at h
    · dsimp only at h
      split_ifs at h with h1 h2 h3
      · simp only [Res.ret.injEq, Option.some.injEq] at h
        subst h
        simp [h2]
      · exact ih _ h
      · simp at h
      · exact ih _ h

/-- A push that returns finds the queue either untouched (flag false) or with
the enqueue position advanced by one and the element in the slot of the old
position, whose sequence is the new position (flag true). -/
theorem try_push_ret (q q1 : queue α) (x : α) (fuel : Nat) (b : Bool)
    (h : q.try_push x fuel = Res.ret (b, q1)) :
    (b = false ∧ q1 = q) ∨
    (b = true ∧ q1 = { q with
        enqueuePos := (q.enqueuePos + 1) % U32
        buffer := q.buffer.set (q.enqueuePos &&& q.bufMask)
          ⟨some x, (q.enqueuePos + 1) % U32⟩ }) := by
  unfold try_push at h
  cases hl : try_push_loop q fuel q.enqueuePos with
  | ret r =>
    rw [hl] at h
    cases r with
    | none =>
      simp only [Res.bind, Res.ret.injEq, Prod.mk.injEq] at h
      exact Or.inl ⟨h.1.symm, h.2.symm⟩
    | some pr =>
      obtain ⟨h1, h2⟩ := try_push_loop_break q fuel _ pr hl
      obtain ⟨pos, nextPos⟩ := pr
      simp only at h1 h2
      subst h1 h2
      simp only [Res.bind, Res.ret.injEq, Prod.mk.injEq] at h
      exact Or.inr ⟨h.1.symm, h.2.symm⟩
  | undefined => rw [hl] at h; simp [Res.bind] at h
  | spin => rw [hl] at h; simp [Res.bind] at h
  | abort => rw [hl] at h; simp [Res.bind] at h

/-- When the slot at the enqueue position carries that position as its sequence,
one round suffices: the push returns true. -/
theorem try_push_free (q : queue α) (x : α) (fuel : Nat) (node : Node α)
    (hn : q.buffer[q.enqueuePos &&& q.bufMask]? = some node)
    (hs : node.sequence = q.enqueuePos) :
    q.try_push x (fuel + 1) = Res.ret (true, { q with
        enqueuePos := (q.enqueuePos + 1) % U32
        buffer := q.buffer.set (q.enqueuePos &&& q.bufMask)
          ⟨some x, (q.enqueuePos + 1) % U32⟩ }) := by
  unfold try_push try_push_loop
  simp [hn, hs, Res.bind]

/-- When the slot at the enqueue position carries a sequence below that position
(the queue is full), the push returns false in its first round and the queue
is as it was. -/
theorem try_push_full (q : queue α) (x : α) (fuel : Nat) (node : Node α)
    (hn : q.buffer[q.enqueuePos &&& q.bufMask]? = some node)
    (hs : node.sequence < q.enqueuePos) :
    q.try_push x (fuel + 1) = Res.ret (false, q) := by
  have hne : ¬ node.sequence = q.enqueuePos := by omega
  unfold try_push try_push_loop
  simp [hn, hs, hne, Res.bind]

/-- When the slot at the enqueue position carries a sequence above that position,
every round reloads the same position and the push never leaves its loop. -/
theorem try_push_greater (q : queue α) (x : α) (node : Node α)
    (hn : q.buffer[q.enqueuePos &&& q.bufMask]? = some node)
    (hs : q.enqueuePos < node.sequence) (fuel : Nat) :
    q.try_push x fuel = Res.spin := by
  have hl : try_push_loop q fuel q.enqueuePos = Res.spin := by
    induction fuel with
    | zero => rfl
    | succ n ih =>
      unfold try_push_loop
      simp only [hn]
      rw [if_neg (by omega), if_neg (by omega)]
      exact ih
  unfold try_push
  rw [hl]
  rfl

/-- When there is no slot at the enqueue position, the first round reads outside
the buffer. -/
theorem try_push_no_slot (q : queue α) (x : α) (fuel : Nat)
    (hn : q.buffer[q.enqueuePos &&& q.bufMask]? = none) :
    q.try_push x (fuel + 1) = Res.undefined := by
  unfold try_push try_push_loop
  simp [hn, Res.bind]

end mpmc.queue

/-! ## `TaskLoop`: the decrementer -/

namespace task

/-- C10, as stated, fails: with previous `val = 1` and both `wakeManager` and
`wakeFiber` non-null the step pushes nothing when the `waitingFibers` queue of
`wakeManager` is full.  On `queue(2)` holding the fibers 100 and 101, the
`try_push` of fiber 102 returns false and leaves the queue as it was, and the
step ends in the failed `sanity` check. -/
theorem TaskLoop_afterTask_full_wake_queue :
    ((mpmc.queue.new Platform.gnu 2).bind fun q =>
      (q.try_push 100 1).bind fun r => r.2.try_push 101 1) =
      Res.ret (true, (⟨2, 0, [⟨some 100, 1⟩, ⟨some 101, 2⟩], 1⟩ : mpmc.queue Nat)) ∧
    (Counter.mk 1 102 1).val = 1 ∧ (Counter.mk 1 102 1).wakeManager ≠ 0 ∧
    (Counter.mk 1 102 1).wakeFiber ≠ 0 ∧
    (⟨2, 0, [⟨some 100, 1⟩, ⟨some 101, 2⟩], 1⟩ : mpmc.queue Nat).try_push 102 1 =
      Res.ret (false, ⟨2, 0, [⟨some 100, 1⟩, ⟨some 101, 2⟩], 1⟩) ∧
    TaskLoop_afterTask (fun _ => ⟨2, 0, [⟨some 100, 1⟩, ⟨some 101, 2⟩], 1⟩) ⟨1, 102, 1⟩ 1 =
      Res.abort ∧
    TaskLoop_afterTask (fun _ => ⟨2, 0, [⟨some 100, 1⟩, ⟨some 101, 2⟩], 1⟩) ⟨1, 102, 1⟩ 100 =
      Res.abort :=
  ⟨by decide, by decide, by decide, by decide, by decide, rfl, rfl⟩

/-- C10, amended: the decrementer step on a counter with `val >= 1`.  Unless the
previous value was 1 and both `wakeManager` and `wakeFiber` are non-null, the
step returns with `val` one lower and every queue as it was.  In that one case
the outcome is decided by the slot at the enqueue position of the
`waitingFibers` queue of `wakeManager`: with sequence equal to the position the
step returns, `val` one lower, `wakeFiber` stored in that slot and the enqueue
position advanced by one; with a smaller sequence (the queue is full)
`try_push` returns false, the queue is as it was and the step ends in the
failed `sanity` check; with a larger sequence the push never leaves its loop;
without a slot the push reads outside the buffer.  Every returning step lowers
`val` by exactly one, leaves `wakeManager` and `wakeFiber` as they were, changes
a queue exactly in that one case, and then only that queue. -/
theorem TaskLoop_afterTask_frame (waiting : Nat → mpmc.queue Nat) (counter : Counter)
    (fuel : Nat) (hval : 1 ≤ counter.val) (hu : counter.val < U32) :
    (¬ (counter.val = 1 ∧ counter.wakeManager ≠ 0 ∧ counter.wakeFiber ≠ 0) →
      TaskLoop_afterTask waiting counter fuel =
        Res.ret ({ counter with val := counter.val - 1 }, waiting)) ∧
    ((counter.val = 1 ∧ counter.wakeManager ≠ 0 ∧ counter.wakeFiber ≠ 0) →
      ∀ node : mpmc.Node Nat,
        (waiting counter.wakeManager).buffer[(waiting counter.wakeManager).enqueuePos &&&
          (waiting counter.wakeManager).bufMask]? = some node →
        node.sequence = (waiting counter.wakeManager).enqueuePos →
        TaskLoop_afterTask waiting counter (fuel + 1) =
          Res.ret ({ counter with val := counter.val - 1 },
            Function.update waiting counter.wakeManager
              { waiting counter.wakeManager with
                enqueuePos := ((waiting counter.wakeManager).enqueuePos + 1) % U32
                buffer := (waiting counter.wakeManager).buffer.set
                  ((waiting counter.wakeManager).enqueuePos &&&
                    (waiting counter.wakeManager).bufMask)
                  ⟨some counter.wakeFiber,
                    ((waiting counter.wakeManager).enqueuePos + 1) % U32⟩ })) ∧
    ((counter.val = 1 ∧ counter.wakeManager ≠ 0 ∧ counter.wakeFiber ≠ 0) →
      ∀ node : mpmc.Node Nat,
        (waiting counter.wakeManager).buffer[(waiting counter.wakeManager).enqueuePos &&&
          (waiting counter.wakeManager).bufMask]? = some node →
        node.sequence < (waiting counter.wakeManager).enqueuePos →
        (waiting counter.wakeManager).try_push counter.wakeFiber (fuel + 1) =
          Res.ret (false, waiting counter.wakeManager) ∧
        TaskLoop_afterTask waiting counter (fuel + 1) = Res.abort) ∧
    ((counter.val = 1 ∧ counter.wakeManager ≠ 0 ∧ counter.wakeFiber ≠ 0) →
      ∀ node : mpmc.Node Nat,
        (waiting counter.wakeManager).buffer[(waiting counter.wakeManager).enqueuePos &&&
          (waiting counter.wakeManager).bufMask]? = some node →
        (waiting counter.wakeManager).enqueuePos < node.sequence →
        TaskLoop_afterTask waiting counter fuel = Res.spin) ∧
    ((counter.val = 1 ∧ counter.wakeManager ≠ 0 ∧ counter.wakeFiber ≠ 0) →
      (waiting counter.wakeManager).buffer[(waiting counter.wakeManager).enqueuePos &&&
        (waiting counter.wakeManager).bufMask]? = none →
      TaskLoop_afterTask waiting counter (fuel + 1) = Res.undefined) ∧
    (∀ (c : Counter) (w : Nat → mpmc.queue Nat),
      TaskLoop_afterTask waiting counter fuel = Res.ret (c, w) →
        c.val + 1 = counter.val ∧ c.wakeManager = counter.wakeManager ∧
        c.wakeFiber = counter.wakeFiber ∧
        (w ≠ waiting ↔ (counter.val = 1 ∧ counter.wakeManager ≠ 0 ∧ counter.wakeFiber ≠ 0)) ∧
        (∀ m, m ≠ counter.wakeManager → w m = waiting m)) := by
  have hdec : (counter.val + U32 - 1) % U32 = counter.val - 1 := by
    have : counter.val + U32 - 1 = (counter.val - 1) + U32 := by omega
    rw [this, Nat.add_mod_right, Nat.mod_eq_of_lt (by omega)]
  have hpos : decide (counter.val > 0) = true := by simpa using hval
  have hquiet : ¬ (counter.val = 1 ∧ counter.wakeManager ≠ 0 ∧ counter.wakeFiber ≠ 0) →
      TaskLoop_afterTask waiting counter fuel =
        Res.ret ({ counter with val := counter.val - 1 }, waiting) := by
    intro hc
    unfold TaskLoop_afterTask
    simp only [hdec, hpos, sanity, Res.bind, if_true]
    split_ifs with h1 h2 h3
    · exact absurd ⟨h1, h2, h3⟩ hc
    · rfl
    · rfl
    · rfl
  have hwake : ∀ fuel, (counter.val = 1 ∧ counter.wakeManager ≠ 0 ∧ counter.wakeFiber ≠ 0) →
      TaskLoop_afterTask waiting counter fuel =
        ((waiting counter.wakeManager).try_push counter.wakeFiber fuel).bind fun r =>
          (sanity r.1).bind fun _ =>
            Res.ret ({ counter with val := counter.val - 1 },
              Function.update waiting counter.wakeManager r.2) := by
    intro fuel hc
    obtain ⟨h1, h2, h3⟩ := hc
    unfold TaskLoop_afterTask
    simp only [hdec, hpos, sanity, Res.bind, if_true]
    simp only [h1, h2, h3, ne_eq, not_false_eq_true, if_true]
  refine ⟨hquiet, ?_, ?_, ?_, ?_, ?_⟩
  · intro hc node hn hs
    rw [hwake (fuel + 1) hc, mpmc.queue.try_push_free _ _ fuel node hn hs]
    simp [Res.bind, sanity]
  · intro hc node hn hs
    have hp := mpmc.queue.try_push_full _ counter.wakeFiber fuel node hn hs
    refine ⟨hp, ?_⟩
    rw [hwake (fuel + 1) hc, hp]
    simp [Res.bind, sanity]
  · intro hc node hn hs
    rw [hwake fuel hc, mpmc.queue.try_push_greater _ counter.wakeFiber node hn hs fuel]
    rfl
  · intro hc hn
    rw [hwake (fuel + 1) hc, mpmc.queue.try_push_no_slot _ counter.wakeFiber fuel hn]
    rfl
  · intro c w hret
    by_cases hc : counter.val = 1 ∧ counter.wakeManager ≠ 0 ∧ counter.wakeFiber ≠ 0
    · rw [hwake fuel hc] at hret
      cases hp : (waiting counter.wakeManager).try_push counter.wakeFiber fuel with
      | ret r =>
        obtain ⟨b, q1⟩ := r
        rw [hp] at hret
        cases b with
        | false => simp [Res.bind, sanity] at hret
        | true =>
          simp only [Res.bind, sanity, if_true, Res.ret.injEq, Prod.mk.injEq] at hret
          obtain ⟨hc1, hw⟩ := hret
          subst hc1 hw
          rcases mpmc.queue.try_push_ret _ _ _ _ _ hp with ⟨hb, _⟩ | ⟨_, hq⟩
          · simp at hb
          · refine ⟨by simp only; omega, rfl, rfl, ?_, ?_⟩
            · refine ⟨fun _ => hc, fun _ heq => ?_⟩
              have h1 := congrFun heq counter.wakeManager
              simp only [Function.update_same] at h1
              rw [hq] at h1
              have h2 := congrArg mpmc.queue.enqueuePos h1
              simp only [U32] at h2
              omega
            · intro m hm
              simp [Function.update_noteq hm]
      | undefined => rw [hp] at hret; simp [Res.bind] at hret
      | spin => rw [hp] at hret; simp [Res.bind] at hret
      | abort => rw [hp] at hret; simp [Res.bind] at hret
    · rw [hquiet hc] at hret
      simp only [Res.ret.injEq, Prod.mk.injEq] at hret
      obtain ⟨hc1, hw⟩ := hret
      subst hc1 hw
      refine ⟨by simp only; omega, rfl, rfl, ?_, fun _ _ => rfl⟩
      simp [hc]

theorem TaskLoop_afterTask_frame_witness :
    1 ≤ (Counter.mk 1 100 1).val ∧ (Counter.mk 1 100 1).val < U32 ∧
    TaskLoop_afterTask (fun _ => mpmc.queue.construct 2) ⟨1, 100, 1⟩ 1 =
      Res.ret (⟨1, 100, 0⟩,
        Function.update (fun _ => mpmc.queue.construct 2) 1
          ⟨1, 0, [⟨some 100, 1⟩, ⟨none, 1⟩], 1⟩) ∧
    TaskLoop_afterTask (fun _ => ⟨2, 0, [⟨some 200, 1⟩, ⟨some 201, 2⟩], 1⟩) ⟨1, 100, 1⟩ 1 =
      Res.abort :=
  ⟨by decide, by decide,
    (TaskLoop_afterTask_frame (fun _ => mpmc.queue.construct 2) ⟨1, 100, 1⟩ 0
      (by decide) (by decide)).2.1 ⟨rfl, by decide, by decide⟩ ⟨none, 0⟩ rfl rfl,
    ((TaskLoop_afterTask_frame (fun _ => ⟨2, 0, [⟨some 200, 1⟩, ⟨some 201, 2⟩], 1⟩)
      ⟨1, 100, 1⟩ 0 (by decide) (by decide)).2.2.1 ⟨rfl, by decide, by decide⟩
      ⟨some 200, 1⟩ rfl (by decide)).2⟩

/-! ## `RunJobs`, `WaitForCounter` and `Create` -/

/-- C1: `RunJobs` has an empty body.  For every manager, task array, count and
out-variable the manager and `*outCounter` come back as they were; on the idle
manager with one task submitted, both counters are still on `openCounters`
(nothing was popped), the worker queue is still empty and `*outCounter` still
holds its old value 999. -/
theorem RunJobs_changes_nothing :
    (∀ (manager : Manager) (tasks : List Nat) (numTasks outCounter : Nat),
      RunJobs manager tasks numTasks outCounter = (manager, outCounter)) ∧
    (RunJobs managerIdle [7] 1 999).1.openCounters = ⟨2, 0, [⟨some 0, 1⟩, ⟨some 1, 2⟩], 1⟩ ∧
    (RunJobs managerIdle [7] 1 999).1.queuedTasks = [⟨0, 0, [⟨none, 0⟩, ⟨none, 1⟩], 1⟩] ∧
    (RunJobs managerIdle [7] 1 999).1.taskCounters = [⟨0, 0, 0⟩, ⟨0, 0, 0⟩] ∧
    (RunJobs managerIdle [7] 1 999).2 = 999 :=
  ⟨fun _ _ _ _ => rfl, by decide, by decide, by decide, by decide⟩

/-- C2: `WaitForCounter` has an empty body.  For every manager, counter and
value the manager comes back as it was; with counter 0 in use and already at
`val = 0`, `openCounters` afterwards still holds counter 1 only (enqueue
position 2, dequeue position 1): counter 0 was not pushed back. -/
theorem WaitForCounter_changes_nothing :
    (∀ (manager : Manager) (counter value : Nat),
      WaitForCounter manager counter value = manager) ∧
    (WaitForCounter managerCounterInUse 0 0).openCounters =
      ⟨2, 1, [⟨some 0, 2⟩, ⟨some 1, 2⟩], 1⟩ ∧
    (WaitForCounter managerCounterInUse 0 0).openCounters.approx_size = 1 :=
  ⟨fun _ _ _ => rfl, by decide, by decide⟩

theorem forRes_Create_worker_openCounters (p : Platform) (T fuel : Nat) (n : Nat)
    (m m1 : Manager) (h : forRes n (Create_worker p T fuel) m = Res.ret m1) :
    m1.openCounters = m.openCounters := by
  induction n generalizing m1 with
  | zero =>
    simp only [forRes, Res.ret.injEq] at h
    rw [h]
  | succ k ih =>
    simp only [forRes] at h
    cases hk : forRes k (Create_worker p T fuel) m with
    | ret m2 =>
      rw [hk] at h
      simp only [Res.bind, Create_worker] at h
      cases hq : (mpmc.queue.new p T : Res (mpmc.queue QueuedTask)) with
      | ret q =>
        rw [hq] at h
        cases hl : sync.lock sync.LIGHT_MUTEX_INIT fuel with
        | ret l =>
          rw [hl] at h
          simp only [Res.ret.injEq] at h
          rw [← h]
          exact ih m2 hk
        | undefined => rw [hl] at h; simp at h
        | spin => rw [hl] at h; simp at h
        | abort => rw [hl] at h; simp at h
      | undefined => rw [hq] at h; simp at h
      | spin => rw [hq] at h; simp at h
      | abort => rw [hq] at h; simp at h
    | undefined => rw [hk] at h; simp [Res.bind] at h
    | spin => rw [hk] at h; simp [Res.bind] at h
    | abort => rw [hk] at h; simp [Res.bind] at h

theorem try_push_null_buffer {α : Type} (q : mpmc.queue α) (x : α) (fuel : Nat)
    (h : q.buffer = []) : (q.try_push x fuel).isRet = false := by
  cases fuel with
  | zero => simp [mpmc.queue.try_push, mpmc.queue.try_push_loop, Res.bind, Res.isRet]
  | succ n => simp [mpmc.queue.try_push, mpmc.queue.try_push_loop, Res.bind, Res.isRet, h]

theorem Create_fiber_null_buffer (fc : Nat → Nat) (fuel i : Nat) (m : Manager)
    (h : m.openCounters.buffer = []) : (Create_fiber fc fuel i m).isRet = false := by
  unfold Create_fiber
  have hp := try_push_null_buffer m.openCounters (fc i) fuel h
  cases hq : m.openCounters.try_push (fc i) fuel with
  | ret r => rw [hq] at hp; simp [Res.isRet] at hp
  | undefined => simp [hq, Res.bind, Res.isRet]
  | spin => simp [hq, Res.bind, Res.isRet]
  | abort => simp [hq, Res.bind, Res.isRet]

theorem forRes_Create_fiber_null_buffer (fc : Nat → Nat) (fuel n : Nat) (m m1 : Manager)
    (h0 : m.openCounters.buffer = [])
    (h : forRes n (Create_fiber fc fuel) m = Res.ret m1) : m1.openCounters.buffer = [] := by
  have hfail : ∀ k, (forRes (k + 1) (Create_fiber fc fuel) m).isRet = false := by
    intro k
    induction k with
    | zero =>
      simp only [forRes, Res.bind]
      exact Create_fiber_null_buffer fc fuel 0 m h0
    | succ j ih =>
      rw [forRes]
      cases hj : forRes (j + 1) (Create_fiber fc fuel) m with
      | ret m2 => rw [hj] at ih; simp [Res.isRet] at ih
      | undefined => simp [Res.bind, Res.isRet]
      | spin => simp [Res.bind, Res.isRet]
      | abort => simp [Res.bind, Res.isRet]
  cases n with
  | zero =>
    simp only [forRes, Res.ret.injEq] at h
    rw [← h]
    exact h0
  | succ k =>
    exfalso
    have hk := hfail k
    rw [h] at hk
    simp [Res.isRet] at hk

/-- C3: the fiber loop of `Create` pushes each fiber with
`manager->openCounters.try_push(fiber)`, on a queue that is still zero bytes
(null `buffer`), and never touches `openFibers`.  With one worker, one fiber
and one task per worker the initialisation leaves defined behaviour at that
push, whatever `fiber::Create` returns; and for every platform, worker count,
task count and every fiber count `F + 1` the initialisation does not run to its
end, so no manager with the fibers on `openFibers` is produced. -/
theorem Create_init_fiber_push (p : Platform) (fiberCreate : Nat → Nat) (fuel : Nat)
    (numWorkers F numTasksPerWorker : Nat) :
    Create_init Platform.gnu fiberCreate (fuel + 1) 1 1 1 = Res.undefined ∧
    (Create_init p fiberCreate fuel numWorkers (F + 1) numTasksPerWorker).isRet = false := by
  refine ⟨rfl, ?_⟩
  unfold Create_init
  simp only
  cases hw : forRes numWorkers (Create_worker p numTasksPerWorker fuel)
      (Manager.zeroed numWorkers (F + 1) (numTasksPerWorker * numWorkers % U32)) with
  | ret m1 =>
    have hoc := forRes_Create_worker_openCounters p numTasksPerWorker fuel numWorkers _ m1 hw
    cases hq : (mpmc.queue.new p (F + 1) : Res (mpmc.queue Nat)) with
    | ret q =>
      simp only [Res.bind]
      cases hf : forRes (F + 1) (Create_fiber fiberCreate fuel)
          { m1 with waitingFibers := q, openFibers := q } with
      | ret m2 =>
        exfalso
        have hb : ({ m1 with waitingFibers := q, openFibers := q } : Manager).openCounters.buffer
            = [] := by
          simp only [hoc]
          rfl
        have hfail : (forRes (F + 1) (Create_fiber fiberCreate fuel)
            { m1 with waitingFibers := q, openFibers := q }).isRet = false := by
          rw [forRes]
          cases hj : forRes F (Create_fiber fiberCreate fuel)
              { m1 with waitingFibers := q, openFibers := q } with
          | ret m3 =>
            simp only [Res.bind]
            exact Create_fiber_null_buffer _ _ _ _
              (forRes_Create_fiber_null_buffer _ _ _ _ _ hb hj)
          | undefined => simp [Res.bind, Res.isRet]
          | spin => simp [Res.bind, Res.isRet]
          | abort => simp [Res.bind, Res.isRet]
        rw [hf] at hfail
        simp [Res.isRet] at hfail
      | undefined => simp [Res.isRet]
      | spin => simp [Res.isRet]
      | abort => simp [Res.isRet]
    | undefined => simp [Res.bind, Res.isRet]
    | spin => simp [Res.bind, Res.isRet]
    | abort => simp [Res.bind, Res.isRet]
  | undefined => simp [Res.bind, Res.isRet]
  | spin => simp [Res.bind, Res.isRet]
  | abort => simp [Res.bind, Res.isRet]

end task

/-! ## The queue: `try_pop`, capacity one, and the FIFO comparison -/

namespace mpmc.queue

theorem try_pop_loop_greater {α : Type} (q : queue α) (nextPos : Nat) (node : Node α)
    (hn : q.buffer[q.dequeuePos &&& q.bufMask]? = some node)
    (hs : nextPos < node.sequence) (fuel : Nat) :
    try_pop_loop q nextPos fuel q.dequeuePos = Res.spin := by
  induction fuel with
  | zero => rfl
  | succ n ih =>
    unfold try_pop_loop
    simp only [hn]
    rw [if_neg (by omega), if_neg (by omega)]
    exact ih

/-- What `try_pop` does, by the slot sequence `seq` at `dequeuePos & bufMask` and
the entry value `nextPos` of the uninitialised local: for `seq = nextPos` it
returns true, moves the slot payload out, stores `nextPos` in `dequeuePos` and
`nextPos + bufMask` in the slot; for `seq < nextPos` it returns false and
changes nothing; for `seq > nextPos` it never leaves the loop. -/
theorem try_pop_by_entry_value {α : Type} (q : queue α) (nextPos : Nat) (node : Node α)
    (hn : q.buffer[q.dequeuePos &&& q.bufMask]? = some node) (fuel : Nat) :
    (node.sequence = nextPos →
      q.try_pop nextPos (fuel + 1) = Res.ret (true, node.data,
        { q with
          dequeuePos := nextPos
          buffer := q.buffer.set (q.dequeuePos &&& q.bufMask)
            ⟨node.data, (nextPos + q.bufMask) % U32⟩ })) ∧
    (node.sequence < nextPos → q.try_pop nextPos (fuel + 1) = Res.ret (false, none, q)) ∧
    (nextPos < node.sequence → q.try_pop nextPos fuel = Res.spin) := by
  refine ⟨fun h => ?_, fun h => ?_, fun h => ?_⟩
  · unfold try_pop try_pop_loop
    simp [hn, h, Res.bind]
  · unfold try_pop try_pop_loop
    have h1 : ¬ node.sequence = nextPos := by omega
    simp [hn, h, h1, Res.bind]
  · unfold try_pop
    rw [try_pop_loop_greater q nextPos node hn h]
    rfl

theorem construct_eq_filled {α : Type} (c : Nat) : (construct c : queue α) = filled c [] := by
  simp [construct, filled]

theorem filled_slot {α : Type} (c : Nat) (xs : List α) (i : Nat) (hi : i < c) :
    (filled c xs).buffer[i]? =
      some (if i < xs.length then ⟨xs[i]?, i + 1⟩ else ⟨none, i⟩) := by
  simp [filled, List.getElem?_range hi]

theorem filled_mask {α : Type} (e : Nat) (he : e ≤ 31) (xs : List α) (i : Nat) :
    i &&& (filled (2 ^ e) xs).bufMask = i % 2 ^ e := by
  have hpos : 0 < 2 ^ e := Nat.pow_pos (by decide)
  have hle : 2 ^ e ≤ 2 ^ 31 := Nat.pow_le_pow_right (by decide) he
  have hm : (filled (2 ^ e) xs).bufMask = 2 ^ e - 1 := by
    simp only [filled, U32]
    omega
  rw [hm, Nat.and_pow_two_sub_one_eq_mod]

/-- A push on a queue of `2 ^ e` slots that was filled by fewer pushes than it
has slots returns true and leaves the state of one more push. -/
theorem try_push_filled {α : Type} (e : Nat) (he : e ≤ 31) (xs : List α) (x : α) (fuel : Nat)
    (hlen : xs.length < 2 ^ e) :
    (filled (2 ^ e) xs).try_push x (fuel + 1) = Res.ret (true, filled (2 ^ e) (xs ++ [x])) := by
  have hle : 2 ^ e ≤ 2 ^ 31 := Nat.pow_le_pow_right (by decide) he
  have hidx : (filled (2 ^ e) xs).enqueuePos &&& (filled (2 ^ e) xs).bufMask = xs.length := by
    rw [filled_mask e he]
    exact Nat.mod_eq_of_lt hlen
  have hslot : (filled (2 ^ e) xs).buffer[(filled (2 ^ e) xs).enqueuePos &&&
      (filled (2 ^ e) xs).bufMask]? = some ⟨none, xs.length⟩ := by
    rw [hidx, filled_slot _ _ _ hlen]
    simp
  rw [try_push_free _ x fuel _ hslot rfl, hidx]
  have hnext : ((filled (2 ^ e) xs).enqueuePos + 1) % U32 = xs.length + 1 := by
    show (xs.length + 1) % U32 = xs.length + 1
    exact Nat.mod_eq_of_lt (by unfold U32; omega)
  rw [hnext]
  congr 2
  simp only [filled, List.length_append, List.length_singleton]
  congr 1
  apply List.ext_getElem?
  intro i
  by_cases hi : i < 2 ^ e
  · rw [List.getElem?_set]
    by_cases hil : xs.length = i
    · subst hil
      simp [hlen]
    · rw [if_neg hil]
      simp only [List.getElem?_map, List.getElem?_range hi, Option.map_some']
      by_cases hlt : i < xs.length
      · have h1 : i < xs.length + 1 := by omega
        simp [hlt, h1, List.getElem?_append_left hlt]
      · have h1 : ¬ i < xs.length + 1 := by omega
        simp [hlt, h1]
  · have h1 : (List.range (2 ^ e)).length ≤ i := by simp; omega
    rw [List.getElem?_set]
    have h2 : ¬ xs.length = i := by omega
    rw [if_neg h2]
    have h3 : (List.range (2 ^ e))[i]? = none := List.getElem?_eq_none h1
    simp [h3]

/-- A push on a queue of `2 ^ e >= 2` slots that holds as many elements as it has
slots returns false and changes nothing. -/
theorem try_push_filled_full {α : Type} (e : Nat) (he1 : 1 ≤ e) (he : e ≤ 31) (xs : List α)
    (x : α) (fuel : Nat) (hlen : xs.length = 2 ^ e) :
    (filled (2 ^ e) xs).try_push x (fuel + 1) = Res.ret (false, filled (2 ^ e) xs) := by
  have h2 : 2 ^ 1 ≤ 2 ^ e := Nat.pow_le_pow_right (by decide) he1
  have hidx : (filled (2 ^ e) xs).enqueuePos &&& (filled (2 ^ e) xs).bufMask = 0 := by
    rw [filled_mask e he]
    show xs.length % 2 ^ e = 0
    rw [hlen]
    exact Nat.mod_self _
  have hslot : (filled (2 ^ e) xs).buffer[(filled (2 ^ e) xs).enqueuePos &&&
      (filled (2 ^ e) xs).bufMask]? = some ⟨xs[0]?, 1⟩ := by
    rw [hidx, filled_slot _ _ _ (by omega)]
    have : 0 < xs.length := by omega
    simp [this]
  unfold try_push try_push_loop
  rw [hslot]
  have hpos : (filled (2 ^ e) xs).enqueuePos = xs.length := rfl
  simp only [hpos]
  rw [if_neg (by omega), if_pos (by omega)]
  rfl

/-- C6: `try_pop` never computes `pos + 1`; it compares the slot sequence with the
entry value of the uninitialised `nextPos`.  On `queue(1)` holding the one
element 7 (`pos = 0`, slot sequence 1 = `pos + 1`): with entry value 0 the call
never leaves the loop, with entry value 2 it returns false; only entry value 1
pops the 7.  On an empty `queue(2)` (slot sequence 0, smaller than `pos + 1`)
with entry value 0 it returns true and rewrites the slot sequence. -/
theorem try_pop_target_not_pos_plus_one :
    ((new Platform.gnu 1).bind fun q => q.try_push 7 1) =
      Res.ret (true, (⟨1, 0, [⟨some 7, 1⟩], 0⟩ : queue Nat)) ∧
    (∀ fuel, (⟨1, 0, [⟨some 7, 1⟩], 0⟩ : queue Nat).try_pop 0 fuel = Res.spin) ∧
    (⟨1, 0, [⟨some 7, 1⟩], 0⟩ : queue Nat).try_pop 2 1 =
      Res.ret (false, none, ⟨1, 0, [⟨some 7, 1⟩], 0⟩) ∧
    (⟨1, 0, [⟨some 7, 1⟩], 0⟩ : queue Nat).try_pop 1 1 =
      Res.ret (true, some 7, ⟨1, 1, [⟨some 7, 1⟩], 0⟩) ∧
    ((new Platform.gnu 2).bind fun q => q.try_pop 0 1) =
      Res.ret (true, none, (⟨0, 0, [⟨none, 1⟩, ⟨none, 1⟩], 1⟩ : queue Nat)) := by
  refine ⟨by decide, fun fuel => ?_, by decide, by decide, by decide⟩
  exact (try_pop_by_entry_value (⟨1, 0, [⟨some 7, 1⟩], 0⟩ : queue Nat) 0 ⟨some 7, 1⟩ rfl fuel).2.2
    (by decide)

/-- C4: two call sequences on which the queue and the bounded FIFO differ.
On `queue(1)` (capacity `NextPower2(1) = 1`) the calls push 7, push 8 both
return true and the 8 overwrites the 7, where the FIFO refuses the second push.
On `queue(2)` the calls push 7, pop with entry value 0 of `nextPos` leave the
pop in its loop for every number of rounds, where the FIFO returns the 7. -/
theorem fifo_refinement_fails :
    NextPower2 Platform.gnu 1 = Res.ret 1 ∧
    ((new Platform.gnu 1).bind fun q => (q.try_push 7 1).bind fun r => r.2.try_push 8 1) =
      Res.ret (true, (⟨2, 0, [⟨some 8, 2⟩], 0⟩ : queue Nat)) ∧
    (((BoundedFifo.empty 1).push 7).2.push 8 : Bool × BoundedFifo Nat) = (false, ⟨1, [7]⟩) ∧
    (∀ fuel, ((new Platform.gnu 2).bind fun q => (q.try_push 7 1).bind fun r =>
      r.2.try_pop 0 fuel) = Res.spin) ∧
    (((BoundedFifo.empty 2).push 7).2.pop : Bool × Option Nat × BoundedFifo Nat) =
      (true, some 7, ⟨2, []⟩) := by
  refine ⟨by decide, by decide, by decide, fun fuel => ?_, by decide⟩
  have h : ((new Platform.gnu 2).bind fun q => q.try_push 7 1) =
      Res.ret (true, (⟨1, 0, [⟨some 7, 1⟩, ⟨none, 1⟩], 1⟩ : queue Nat)) := by decide
  have h2 := (try_pop_by_entry_value (⟨1, 0, [⟨some 7, 1⟩, ⟨none, 1⟩], 1⟩ : queue Nat) 0
    ⟨some 7, 1⟩ rfl fuel).2.2 (by decide)
  rw [← h2]
  rfl

/-- C5: `try_push` on a queue that already holds `bufMask + 1` elements, and on
queues that do not.  `queue(1)` after one push holds its capacity of one
element, yet the next push returns true, moves `enqueuePos` from 1 to 2 and
replaces the payload.  `queue(2 ^ 31 + 1)` gets `bufMask = 2 ^ 32 - 1` and no
slots, and the first push reads outside the allocation.  On a fresh `queue(2)`,
after a `try_pop` entered with `nextPos = 0` (which returns true), a push on the
queue, which holds nothing, never leaves its loop. -/
theorem try_push_full_and_termination_fail :
    ((new Platform.gnu 1).bind fun q => q.try_push 7 1) =
      Res.ret (true, (⟨1, 0, [⟨some 7, 1⟩], 0⟩ : queue Nat)) ∧
    (⟨1, 0, [⟨some 7, 1⟩], 0⟩ : queue Nat).try_push 8 1 =
      Res.ret (true, ⟨2, 0, [⟨some 8, 2⟩], 0⟩) ∧
    (new Platform.gnu (2 ^ 31 + 1) : Res (queue Nat)) = Res.ret ⟨0, 0, [], 2 ^ 32 - 1⟩ ∧
    (∀ fuel, (⟨0, 0, [], 2 ^ 32 - 1⟩ : queue Nat).try_push 7 (fuel + 1) = Res.undefined) ∧
    ((new Platform.gnu 2).bind fun q => q.try_pop 0 1) =
      Res.ret (true, none, (⟨0, 0, [⟨none, 1⟩, ⟨none, 1⟩], 1⟩ : queue Nat)) ∧
    (∀ fuel, (⟨0, 0, [⟨none, 1⟩, ⟨none, 1⟩], 1⟩ : queue Nat).try_push 7 fuel = Res.spin) := by
  refine ⟨by decide, by decide, by decide, fun fuel => rfl, by decide, fun fuel => ?_⟩
  have hl : ∀ n, try_push_loop (⟨0, 0, [⟨none, 1⟩, ⟨none, 1⟩], 1⟩ : queue Nat) n 0 = Res.spin := by
    intro n
    induction n with
    | zero => rfl
    | succ k ih =>
      unfold try_push_loop
      simpa using ih
  unfold try_push
  rw [hl fuel]
  rfl

end mpmc.queue

/-! ## `NextPower2` -/

theorem clzBits_spec (k x : Nat) (h0 : 0 < x) (hx : x < 2 ^ k) :
    clzBits k x < k ∧ 2 ^ (k - clzBits k x - 1) ≤ x ∧ x < 2 ^ (k - clzBits k x) := by
  induction k with
  | zero => simp at hx; omega
  | succ n ih =>
    unfold clzBits
    by_cases h : 2 ^ n ≤ x
    · rw [if_pos h]
      exact ⟨by omega, by simpa using h, by simpa using hx⟩
    · rw [if_neg h]
      obtain ⟨h1, h2, h3⟩ := ih (by omega)
      have e1 : n + 1 - (clzBits n x + 1) - 1 = n - clzBits n x - 1 := by omega
      have e2 : n + 1 - (clzBits n x + 1) = n - clzBits n x := by omega
      rw [e1, e2]
      exact ⟨by omega, h2, h3⟩

/-- The `__builtin_clz` definition of `NextPower2` is right on `2 <= v <= 2 ^ 31`:
it returns a power of two `2 ^ k` with `v <= 2 ^ k`, below every other power of
two that is at least `v`; and it returns 1 for `v <= 1`. -/
theorem NextPower2_gnu_spec (v : Nat) :
    (v ≤ 1 → NextPower2_gnu v = 1) ∧
    (2 ≤ v → v ≤ 2 ^ 31 →
      ∃ k, k ≤ 31 ∧ NextPower2_gnu v = 2 ^ k ∧ v ≤ 2 ^ k ∧ ∀ j, v ≤ 2 ^ j → 2 ^ k ≤ 2 ^ j) := by
  refine ⟨fun h => by simp [NextPower2_gnu, h], fun h2 h31 => ?_⟩
  have hx : v - 1 < 2 ^ 32 := by omega
  obtain ⟨c1, c2, c3⟩ := clzBits_spec 32 (v - 1) (by omega) hx
  have hc : 1 ≤ clzBits 32 (v - 1) := by
    by_contra hcon
    have hz : clzBits 32 (v - 1) = 0 := by omega
    rw [hz] at c2
    simp only [Nat.sub_zero] at c2
    omega
  refine ⟨32 - clzBits 32 (v - 1), by omega, ?_, by omega, fun j hj => ?_⟩
  · unfold NextPower2_gnu __builtin_clz
    rw [if_neg (by omega), Nat.one_shiftLeft]
    have hle : 2 ^ (32 - clzBits 32 (v - 1)) ≤ 2 ^ 31 :=
      Nat.pow_le_pow_right (by decide) (by omega)
    have e1 : 2 ^ (32 - clzBits 32 (v - 1)) % 2 ^ 64 = 2 ^ (32 - clzBits 32 (v - 1)) :=
      Nat.mod_eq_of_lt (by omega)
    have e2 : 2 ^ (32 - clzBits 32 (v - 1)) % U32 = 2 ^ (32 - clzBits 32 (v - 1)) :=
      Nat.mod_eq_of_lt (by unfold U32; omega)
    rw [e1, e2]
  · apply Nat.pow_le_pow_right (by decide)
    by_contra hcon
    have hlt : j ≤ 32 - clzBits 32 (v - 1) - 1 := by omega
    have : 2 ^ j ≤ 2 ^ (32 - clzBits 32 (v - 1) - 1) := Nat.pow_le_pow_right (by decide) hlt
    omega

/-- With the `__builtin_clz` definition, `queue(n)` for `n <= 2 ^ 31` is the empty
queue of `2 ^ e >= n` slots: `bufMask + 1 = 2 ^ e`, slot `i` has sequence `i`, and
both positions are 0. -/
theorem mpmc.queue.new_gnu_spec {α : Type} (n : Nat) (hn : n ≤ 2 ^ 31) :
    ∃ e, e ≤ 31 ∧ n ≤ 2 ^ e ∧
      (mpmc.queue.new Platform.gnu n : Res (mpmc.queue α)) =
        Res.ret (mpmc.queue.filled (2 ^ e) []) ∧
      (mpmc.queue.filled (2 ^ e) ([] : List α)).bufMask + 1 = 2 ^ e ∧
      (mpmc.queue.filled (2 ^ e) ([] : List α)).enqueuePos = 0 ∧
      (mpmc.queue.filled (2 ^ e) ([] : List α)).dequeuePos = 0 ∧
      ∀ i, i < 2 ^ e →
        (mpmc.queue.filled (2 ^ e) ([] : List α)).buffer[i]? = some ⟨none, i⟩ := by
  have hall : ∀ e, e ≤ 31 →
      (mpmc.queue.filled (2 ^ e) ([] : List α)).bufMask + 1 = 2 ^ e ∧
      (mpmc.queue.filled (2 ^ e) ([] : List α)).enqueuePos = 0 ∧
      (mpmc.queue.filled (2 ^ e) ([] : List α)).dequeuePos = 0 ∧
      ∀ i, i < 2 ^ e →
        (mpmc.queue.filled (2 ^ e) ([] : List α)).buffer[i]? = some ⟨none, i⟩ := by
    intro e he
    have hpos : 0 < 2 ^ e := Nat.pow_pos (by decide)
    have hle : 2 ^ e ≤ 2 ^ 31 := Nat.pow_le_pow_right (by decide) he
    refine ⟨?_, rfl, rfl, fun i hi => ?_⟩
    · simp only [mpmc.queue.filled, U32]
      omega
    · rw [mpmc.queue.filled_slot _ _ _ hi]
      simp
  by_cases h1 : n ≤ 1
  · refine ⟨0, by omega, by simpa using h1, ?_, hall 0 (by omega)⟩
    simp only [mpmc.queue.new, NextPower2, (NextPower2_gnu_spec n).1 h1, Res.bind,
      mpmc.queue.construct_eq_filled]
    rfl
  · obtain ⟨k, hk, hv, hge, _⟩ := (NextPower2_gnu_spec n).2 (by omega) hn
    refine ⟨k, hk, hge, ?_, hall k hk⟩
    simp only [mpmc.queue.new, NextPower2, hv, Res.bind, mpmc.queue.construct_eq_filled]

/-- C7: the `_MSC_VER` definition shifts by `32 - bit` where the next power of two
needs `bit + 1`.  For `v = 3` it returns `2 ^ 31`, where the smallest power of
two not below 3 is 4, which the `__builtin_clz` definition returns; for
`v = 65537` it returns `65536`, below the requested size; for `v = 2` the shift
count is 32. -/
theorem NextPower2_msvc_wrong_shift :
    _BitScanReverse (3 - 1) = 1 ∧
    NextPower2_msvc 3 = Res.ret (2 ^ 31) ∧
    NextPower2_gnu 3 = 4 ∧
    NextPower2_msvc 65537 = Res.ret 65536 ∧
    NextPower2_gnu 65537 = 131072 ∧
    NextPower2_msvc 2 = Res.undefined ∧
    NextPower2_gnu 2 = 2 := by
  decide

/-! ## `approx_size` and the park test of `TaskLoop` -/

namespace mpmc.queue

/-- On a queue whose capacity `bufMask + 1` is a power of two up to `2 ^ 31`,
`approx_size` is the number of held elements modulo the capacity. -/
theorem approx_size_eq_held_mod {α : Type} (q : queue α) (e : Nat)
    (hm : q.bufMask + 1 = 2 ^ e) (he : e ≤ 31)
    (hd : q.dequeuePos < U32) :
    q.approx_size = q.held % (q.bufMask + 1) := by
  have hmask : q.bufMask = 2 ^ e - 1 := by omega
  have hc31 : 2 ^ e ≤ 2 ^ 31 := Nat.pow_le_pow_right (by decide) he
  have hcpos : 0 < 2 ^ e := Nat.pow_pos (by decide)
  have hdvd : 2 ^ e ∣ U32 := by
    unfold U32
    exact pow_dvd_pow 2 (by omega)
  have hn : q.enqueuePos % 2 ^ e < 2 ^ e := Nat.mod_lt _ hcpos
  have hdl : q.dequeuePos % 2 ^ e < 2 ^ e := Nat.mod_lt _ hcpos
  unfold approx_size held
  simp only [hmask, Nat.and_pow_two_sub_one_eq_mod]
  have hcap : (2 ^ e - 1 + 1) = 2 ^ e := by omega
  rw [hcap, Nat.mod_mod_of_dvd _ hdvd]
  have hcU : 2 ^ e % U32 = 2 ^ e := Nat.mod_eq_of_lt (by unfold U32; omega)
  rw [hcU]
  -- the candidate value and its congruence
  have key : ∀ r : Nat, r < 2 ^ e →
      r + q.dequeuePos % 2 ^ e ≡ q.enqueuePos % 2 ^ e [MOD 2 ^ e] →
      r = (q.enqueuePos + U32 - q.dequeuePos) % 2 ^ e := by
    intro r hr hcong
    have h1 : (q.enqueuePos + U32 - q.dequeuePos) + q.dequeuePos = q.enqueuePos + U32 := by
      omega
    have h2 : (q.enqueuePos + U32 - q.dequeuePos) + q.dequeuePos ≡ q.enqueuePos [MOD 2 ^ e] := by
      rw [h1]
      have : q.enqueuePos + U32 ≡ q.enqueuePos + 0 [MOD 2 ^ e] :=
        Nat.ModEq.add_left _ ((Nat.modEq_zero_iff_dvd).2 hdvd)
      simpa using this
    have h3 : r + q.dequeuePos ≡ q.enqueuePos [MOD 2 ^ e] := by
      have h4 : r + q.dequeuePos ≡ r + q.dequeuePos % 2 ^ e [MOD 2 ^ e] :=
        Nat.ModEq.add_left _ (Nat.mod_modEq _ _).symm
      exact (h4.trans hcong).trans (Nat.mod_modEq _ _)
    have h5 : r ≡ q.enqueuePos + U32 - q.dequeuePos [MOD 2 ^ e] :=
      Nat.ModEq.add_right_cancel' q.dequeuePos (h3.trans h2.symm)
    have h6 := h5
    unfold Nat.ModEq at h6
    rw [Nat.mod_eq_of_lt hr] at h6
    exact h6
  by_cases hgt : q.dequeuePos % 2 ^ e > q.enqueuePos % 2 ^ e
  · rw [if_pos hgt]
    have hlt : q.enqueuePos % 2 ^ e + 2 ^ e - q.dequeuePos % 2 ^ e < 2 ^ e := by omega
    have hsub : (q.enqueuePos % 2 ^ e + 2 ^ e + 2 ^ 64 - q.dequeuePos % 2 ^ e) % 2 ^ 64
        = q.enqueuePos % 2 ^ e + 2 ^ e - q.dequeuePos % 2 ^ e := by omega
    rw [hsub, Nat.mod_eq_of_lt (by unfold U32; omega)]
    apply key _ hlt
    have : q.enqueuePos % 2 ^ e + 2 ^ e - q.dequeuePos % 2 ^ e + q.dequeuePos % 2 ^ e
        = q.enqueuePos % 2 ^ e + 2 ^ e := by omega
    rw [this]
    simp [Nat.ModEq]
  · rw [if_neg hgt]
    have hlt : q.enqueuePos % 2 ^ e - q.dequeuePos % 2 ^ e < 2 ^ e := by omega
    have hsub : (q.enqueuePos % 2 ^ e + 2 ^ 64 - q.dequeuePos % 2 ^ e) % 2 ^ 64
        = q.enqueuePos % 2 ^ e - q.dequeuePos % 2 ^ e := by omega
    rw [hsub, Nat.mod_eq_of_lt (by unfold U32; omega)]
    apply key _ hlt
    have : q.enqueuePos % 2 ^ e - q.dequeuePos % 2 ^ e + q.dequeuePos % 2 ^ e
        = q.enqueuePos % 2 ^ e := by omega
    rw [this]

end mpmc.queue

namespace task

/-- C9, as stated, fails: a worker queue `queue(2)` filled by two pushes holds
two tasks and `waitingFibers` is empty, yet the park test is true, because
`approx_size` of the full queue is 0.  The same happens on `queue(1)` after one
push. -/
theorem TaskLoop_park_with_full_queue :
    ((mpmc.queue.new Platform.gnu 2).bind fun q =>
      (q.try_push ⟨7, 0⟩ 1).bind fun r => r.2.try_push ⟨8, 0⟩ 1) =
      Res.ret (true, (⟨2, 0, [⟨some ⟨7, 0⟩, 1⟩, ⟨some ⟨8, 0⟩, 2⟩], 1⟩ : mpmc.queue QueuedTask)) ∧
    (⟨2, 0, [⟨some ⟨7, 0⟩, 1⟩, ⟨some ⟨8, 0⟩, 2⟩], 1⟩ : mpmc.queue QueuedTask).held = 2 ∧
    (mpmc.queue.new Platform.gnu 2 : Res (mpmc.queue Nat)) =
      Res.ret ⟨0, 0, [⟨none, 0⟩, ⟨none, 1⟩], 1⟩ ∧
    TaskLoop_park ⟨2, 0, [⟨some ⟨7, 0⟩, 1⟩, ⟨some ⟨8, 0⟩, 2⟩], 1⟩
      ⟨0, 0, [⟨none, 0⟩, ⟨none, 1⟩], 1⟩ = true ∧
    ((mpmc.queue.new Platform.gnu 1).bind fun q => q.try_push ⟨7, 0⟩ 1) =
      Res.ret (true, (⟨1, 0, [⟨some ⟨7, 0⟩, 1⟩], 0⟩ : mpmc.queue QueuedTask)) ∧
    TaskLoop_park ⟨1, 0, [⟨some ⟨7, 0⟩, 1⟩], 0⟩ ⟨0, 0, [⟨none, 0⟩, ⟨none, 1⟩], 1⟩ = true := by
  decide

/-- C9, amended: for a task queue and a `waitingFibers` queue whose capacities
are powers of two up to `2 ^ 31`, `approx_size` is the number of held elements
modulo the capacity, and the park test is true exactly when in both queues the
number of held elements is a multiple of the capacity; for a queue holding at
most its capacity that is: it holds nothing, or it is full. -/
theorem TaskLoop_park_iff (taskQueue : mpmc.queue QueuedTask) (waitingFibers : mpmc.queue Nat)
    (e1 e2 : Nat)
    (hm1 : taskQueue.bufMask + 1 = 2 ^ e1) (he1 : e1 ≤ 31)
    (hd1 : taskQueue.dequeuePos < U32)
    (hm2 : waitingFibers.bufMask + 1 = 2 ^ e2) (he2 : e2 ≤ 31)
    (hd2 : waitingFibers.dequeuePos < U32) :
    taskQueue.approx_size = taskQueue.held % (taskQueue.bufMask + 1) ∧
    waitingFibers.approx_size = waitingFibers.held % (waitingFibers.bufMask + 1) ∧
    (TaskLoop_park taskQueue waitingFibers = true ↔
      taskQueue.held % (taskQueue.bufMask + 1) = 0 ∧
      waitingFibers.held % (waitingFibers.bufMask + 1) = 0) ∧
    (taskQueue.held ≤ taskQueue.bufMask + 1 → waitingFibers.held ≤ waitingFibers.bufMask + 1 →
      (TaskLoop_park taskQueue waitingFibers = true ↔
        (taskQueue.held = 0 ∨ taskQueue.held = taskQueue.bufMask + 1) ∧
        (waitingFibers.held = 0 ∨ waitingFibers.held = waitingFibers.bufMask + 1))) := by
  have h1 := mpmc.queue.approx_size_eq_held_mod taskQueue e1 hm1 he1 hd1
  have h2 := mpmc.queue.approx_size_eq_held_mod waitingFibers e2 hm2 he2 hd2
  have hiff : TaskLoop_park taskQueue waitingFibers = true ↔
      taskQueue.held % (taskQueue.bufMask + 1) = 0 ∧
      waitingFibers.held % (waitingFibers.bufMask + 1) = 0 := by
    unfold TaskLoop_park
    rw [h1, h2]
    simp
  have hmul : ∀ k c : Nat, 0 < c → k ≤ c → (k % c = 0 ↔ (k = 0 ∨ k = c)) := by
    intro k c hc hk
    constructor
    · intro h
      rcases Nat.lt_or_ge k c with hlt | hge
      · left
        rwa [Nat.mod_eq_of_lt hlt] at h
      · right
        omega
    · rintro (rfl | rfl)
      · simp
      · simp
  refine ⟨h1, h2, hiff, fun hk1 hk2 => ?_⟩
  rw [hiff, hmul _ _ (by omega) hk1, hmul _ _ (by omega) hk2]

theorem TaskLoop_park_iff_witness :
    (⟨2, 0, [⟨some ⟨7, 0⟩, 1⟩, ⟨some ⟨8, 0⟩, 2⟩], 1⟩ : mpmc.queue QueuedTask).bufMask + 1 = 2 ^ 1 ∧
    (⟨1, 0, [⟨some 100, 1⟩, ⟨none, 1⟩], 1⟩ : mpmc.queue Nat).bufMask + 1 = 2 ^ 1 ∧
    1 ≤ 31 ∧
    (⟨2, 0, [⟨some ⟨7, 0⟩, 1⟩, ⟨some ⟨8, 0⟩, 2⟩], 1⟩ : mpmc.queue QueuedTask).dequeuePos < U32 ∧
    (⟨1, 0, [⟨some 100, 1⟩, ⟨none, 1⟩], 1⟩ : mpmc.queue Nat).dequeuePos < U32 ∧
    (TaskLoop_park ⟨2, 0, [⟨some ⟨7, 0⟩, 1⟩, ⟨some ⟨8, 0⟩, 2⟩], 1⟩
        ⟨1, 0, [⟨some 100, 1⟩, ⟨none, 1⟩], 1⟩ = true ↔
      (⟨2, 0, [⟨some ⟨7, 0⟩, 1⟩, ⟨some ⟨8, 0⟩, 2⟩], 1⟩ : mpmc.queue QueuedTask).held % (1 + 1) = 0 ∧
      (⟨1, 0, [⟨some 100, 1⟩, ⟨none, 1⟩], 1⟩ : mpmc.queue Nat).held % (1 + 1) = 0) :=
  ⟨by decide, by decide, by decide, by decide, by decide,
    (TaskLoop_park_iff ⟨2, 0, [⟨some ⟨7, 0⟩, 1⟩, ⟨some ⟨8, 0⟩, 2⟩], 1⟩
      ⟨1, 0, [⟨some 100, 1⟩, ⟨none, 1⟩], 1⟩ 1 1
      (by decide) (by decide) (by decide) (by decide) (by decide) (by decide)).2.2.1⟩

end task
